import Mathlib

/-!
Verification of the pushboard audio engine.

This file is a shallow embedding of the engine's core state and operations:

* the capture subsystem — pre-roll ring buffer, Listening/Recording state
  machine, command handling and WAV persistence (src/audio/capture.rs);
* the playback voice table keyed by pad address (src/app/audio_player.rs);
* the deferred auto-stop scheduler (src/app/events.rs, trigger_sound_playback);
* the region-fraction encoder handlers (src/app/events.rs, handle_encoder_twist).

Audio samples and parameter values (Rust f32/f64) are modelled as rationals:
multiplication by the integer gain factor and clamping to an interval are
exact in both representations on the inputs of interest.  Filesystem calls
are modelled by an explicit oracle recording which of them succeed, and the
tokio task machinery by an explicit ledger of spawned tasks with an aborted
flag — an aborted task never runs its body, which is exactly the semantics
the source relies on ("If it *was* aborted, this code will never run").
-/

namespace Pushboard

abbrev Path := String

/-- Negotiated stream format (the fields of spa AudioInfoRaw the engine reads). -/
structure AudioFormat where
  rate : Nat
  channels : Nat
  deriving DecidableEq

/-- Recorder mode (enum State in src/audio/capture.rs). -/
inductive State where
  | Listening : State
  | Recording : Path → State
  deriving DecidableEq

/-- Shared capture state (struct UserData in src/audio/capture.rs). -/
structure UserData where
  format : Option AudioFormat
  state : State
  buffer : List ℚ
  pre_buffer_max_samples : Nat
  deriving DecidableEq

/-- Pre-roll window length in seconds (const PRE_BUFFER_SECONDS). -/
def PRE_BUFFER_SECONDS : Nat := 1

/-- Fixed input gain applied in the process callback (const GAIN_FACTOR). -/
def GAIN_FACTOR : ℚ := 2

/-- Rust f32::clamp / f64::clamp (for lo ≤ hi): below lo gives lo, above hi
gives hi, otherwise the value itself. -/
def clampQ (x lo hi : ℚ) : ℚ := if x < lo then lo else if hi < x then hi else x

/-- Rust f64::max. -/
def maxQ (a b : ℚ) : ℚ := if a < b then b else a

/-- Rust f64::abs. -/
def absQ (x : ℚ) : ℚ := if x < 0 then -x else x

/-- Capture state at engine start (the Mutex initialisation in run_capture_loop). -/
def initialUserData : UserData :=
  { format := none, state := State.Listening, buffer := [], pre_buffer_max_samples := 0 }

/-- Format negotiation (param_changed callback): record the format and derive
the pre-roll capacity as rate * channels * PRE_BUFFER_SECONDS. -/
def negotiateFormat (u : UserData) (info : AudioFormat) : UserData :=
  { u with
    format := some info
    pre_buffer_max_samples := info.rate * info.channels * PRE_BUFFER_SECONDS }

/-- The gain-and-clamp mapping the process callback applies to a block of raw
input samples before extending the buffer (the all_samples vector). -/
def blockSamples (input : List ℚ) : List ℚ :=
  input.map fun s => clampQ (s * GAIN_FACTOR) (-1) 1

/-- Append phase of the process callback: user_data.buffer.extend(all_samples). -/
def ingestAppend (u : UserData) (input : List ℚ) : UserData :=
  { u with buffer := u.buffer ++ blockSamples input }

/-- Trim phase of the process callback: while Listening, and with a positive
capacity, drain from the front whatever exceeds pre_buffer_max_samples. -/
def ingestTrim (u : UserData) : UserData :=
  if u.state = State.Listening then
    if 0 < u.pre_buffer_max_samples then
      if u.pre_buffer_max_samples < u.buffer.length then
        { u with buffer := u.buffer.drop (u.buffer.length - u.pre_buffer_max_samples) }
      else u
    else u
  else u

/-- One process-callback invocation on a dequeued block of samples
(src/audio/capture.rs, the .process closure): ignored while the format is
unknown, otherwise gain-clamp-append followed by the Listening-only trim. -/
def processBlock (u : UserData) (input : List ℚ) : UserData :=
  match u.format with
  | none => u
  | some _ => ingestTrim (ingestAppend u input)

/-- Capture commands (enum AudioCommand in src/app/state.rs). -/
inductive AudioCommand where
  | Start : Path → AudioCommand
  | Stop : AudioCommand
  deriving DecidableEq

/-- Notifications back to the controller (enum AppCommand in src/app/state.rs). -/
inductive AppCommand where
  | FileSaved : Path → AppCommand
  deriving DecidableEq

/-- What Stop hands to the writer: the taken buffer, the format, the target path. -/
abbrev SaveData := List ℚ × AudioFormat × Path

/-- The state mutation performed under the lock for one command
(the match in handle_audio_commands, src/audio/capture.rs): Start transitions
Listening to Recording when the format is known, otherwise does nothing;
Stop replaces the mode with Listening and, if the old mode was Recording,
takes the whole buffer (leaving an empty one) and requests a save. -/
def handleCommand (u : UserData) (c : AudioCommand) : UserData × Option SaveData :=
  match c with
  | AudioCommand.Start path =>
      match u.format with
      | some _ =>
          match u.state with
          | State.Listening => ({ u with state := State.Recording path }, none)
          | State.Recording _ => (u, none)
      | none => (u, none)
  | AudioCommand.Stop =>
      match u.state with
      | State.Recording save_path =>
          let u1 : UserData := { u with state := State.Listening, buffer := [] }
          match u.format with
          | some fmt => (u1, some (u.buffer, fmt, save_path))
          | none => (u1, none)
      | State.Listening => (u, none)

/-- WAV header data (hound WavSpec). -/
structure WavSpec where
  channels : Nat
  sample_rate : Nat
  bits_per_sample : Nat
  float_format : Bool
  deriving DecidableEq

/-- A finalized file on disk. -/
structure WavFile where
  path : Path
  spec : WavSpec
  samples : List ℚ
  deriving DecidableEq

/-- Filesystem oracle: whether WavWriter::create succeeds.  Directory-creation
failures and per-sample write or finalize failures are ignored by the source
(every such call site is `let _ = ...`), so they do not influence control flow
and are not modelled separately. -/
structure FsOracle where
  writerCreateOk : Bool
  deriving DecidableEq

def FsOracle.allOk : FsOracle := { writerCreateOk := true }

/-- Model of save_recording_from_buffer (src/audio/capture.rs): an empty
buffer writes nothing; otherwise the parent directory is created, and if the
writer can be created the whole buffer is written in order as 32-bit float
samples.  Returns the file that ends up on disk, if any. -/
def save_recording_from_buffer (disk : FsOracle) (buffer : List ℚ)
    (format : AudioFormat) (filename : Path) : Option WavFile :=
  if buffer.isEmpty then none
  else
    let spec : WavSpec :=
      { channels := format.channels
        sample_rate := format.rate
        bits_per_sample := 32
        float_format := true }
    if disk.writerCreateOk then
      some { path := filename, spec := spec, samples := buffer }
    else none

/-- One iteration of the command loop in handle_audio_commands: mutate the
state under the lock, then — outside the lock — whenever a save was requested,
run the writer and send the FileSaved notification.  The source sends the
notification unconditionally after calling the writer (the writer returns
unit and its failures are ignored). -/
def commandStep (disk : FsOracle) (u : UserData) (c : AudioCommand) :
    UserData × Option WavFile × Option AppCommand :=
  let r := handleCommand u c
  match r.2 with
  | some sd =>
      (r.1, save_recording_from_buffer disk sd.1 sd.2.1 sd.2.2,
        some (AppCommand.FileSaved sd.2.2))
  | none => (r.1, none, none)

/-- Last n elements of a list (what front-draining to capacity n leaves). -/
def lastN (n : Nat) (l : List α) : List α := l.drop (l.length - n)

/-! ## Playback engine (src/app/audio_player.rs) -/

/-- Decoded sample data shared read-only between voices; its audio contents
are irrelevant to the voice-table logic, so it is identified by an id. -/
structure StaticSoundData where
  dataId : Nat
  deriving DecidableEq

/-- The settings a Play request carries (volume, playback rate, start offset). -/
structure StaticSoundSettings where
  volume : ℚ
  playback_rate : ℚ
  start_position : ℚ
  deriving DecidableEq

/-- struct KiraPlayRequest. -/
structure KiraPlayRequest where
  pad_key : Nat
  sound_data : StaticSoundData
  settings : StaticSoundSettings
  deriving DecidableEq

/-- enum KiraCommand. -/
inductive KiraCommand where
  | Play : KiraPlayRequest → KiraCommand
  | Stop : Nat → KiraCommand
  | SetPlaybackRate : Nat → ℚ → KiraCommand
  | SetVolume : Nat → ℚ → KiraCommand
  deriving DecidableEq

/-- A parameter ramp (kira Tween); fast_tween below is the 10 ms linear one. -/
structure Tween where
  immediateStart : Bool
  durationMillis : Nat
  deriving DecidableEq

def fast_tween : Tween := { immediateStart := true, durationMillis := 10 }

/-- A live voice handle, identified by the play request that created it
(manager.play returns a handle for exactly that sound and settings). -/
structure StaticSoundHandle where
  source : KiraPlayRequest
  deriving DecidableEq

/-- The active_handles map of run_kira_loop.  A HashMap holds at most one
entry per key; the embedding uses a key-value list whose keys are kept
distinct (see voiceKeysNodup), with removal dropping every entry at the key. -/
abbrev VoiceTable := List (Nat × StaticSoundHandle)

/-- Audible side effects issued through voice handles. -/
inductive KiraEffect where
  | stoppedVoice : Nat → StaticSoundHandle → Tween → KiraEffect
  | rateChanged : Nat → ℚ → Tween → KiraEffect
  | volumeChanged : Nat → ℚ → Tween → KiraEffect
  deriving DecidableEq

def voiceKeysNodup (handles : VoiceTable) : Prop :=
  (handles.map Prod.fst).Nodup

/-- fn stop_sound_if_playing: remove the voice at the key, if any, and stop
its handle with the fast tween. -/
def stop_sound_if_playing (handles : VoiceTable) (key : Nat) :
    VoiceTable × List KiraEffect :=
  match handles.lookup key with
  | some h =>
      (handles.filter fun e => e.1 != key, [KiraEffect.stoppedVoice key h fast_tween])
  | none => (handles, [])

/-- One iteration of run_kira_loop on a received command.  playOk models the
result of manager.play: on failure the error is logged and no voice is
registered (but the old voice at the key was already stopped and removed). -/
def runKiraStep (playOk : Bool) (handles : VoiceTable) (cmd : KiraCommand) :
    VoiceTable × List KiraEffect :=
  match cmd with
  | KiraCommand.Play req =>
      let r := stop_sound_if_playing handles req.pad_key
      if playOk then ((req.pad_key, ⟨req⟩) :: r.1, r.2) else r
  | KiraCommand.Stop key => stop_sound_if_playing handles key
  | KiraCommand.SetPlaybackRate key rate =>
      match handles.lookup key with
      | some _ => (handles, [KiraEffect.rateChanged key rate fast_tween])
      | none => (handles, [])
  | KiraCommand.SetVolume key vol =>
      match handles.lookup key with
      | some _ => (handles, [KiraEffect.volumeChanged key vol fast_tween])
      | none => (handles, [])

/-- The voice table reached after a sequence of commands, each paired with
the success of its manager.play call (irrelevant for non-Play commands). -/
def runKira (steps : List (Bool × KiraCommand)) (handles : VoiceTable) : VoiceTable :=
  steps.foldl (fun h s => (runKiraStep s.1 h s.2).1) handles

/-! ## Deferred auto-stop scheduler (src/app/events.rs, trigger_sound_playback)

The auto_stop_tasks map lives in AppState on the controller thread.  A spawned
tokio task is modelled as a ledger entry with an aborted flag; JoinHandle.abort
marks the flag, and an aborted task never runs its body. -/

structure AutoStopTask where
  id : Nat
  address : Nat
  delaySeconds : ℚ
  aborted : Bool
  deriving DecidableEq

def mkTask (tid address2 : Nat) (delay : ℚ) (ab : Bool) : AutoStopTask :=
  { id := tid, address := address2, delaySeconds := delay, aborted := ab }

/-- The controller-side scheduling state: the auto_stop_tasks map from pad
address to the id of its pending task, plus the ledger of every spawned task
and a fresh-id counter. -/
structure ControllerState where
  auto_stop_tasks : List (Nat × Nat)
  tasks : List AutoStopTask
  nextTaskId : Nat
  deriving DecidableEq

def initialController : ControllerState :=
  { auto_stop_tasks := [], tasks := [], nextTaskId := 0 }

/-- Mark the task with the given id aborted (JoinHandle.abort). -/
def abortTask (tasks : List AutoStopTask) (tid : Nat) : List AutoStopTask :=
  tasks.map fun t => if t.id = tid then { t with aborted := true } else t

/-- The real-time sleep duration trigger_sound_playback computes for a voice:
start_sec = dur * start_pct, end_sec = dur * end_pct,
play_dur = max (end_sec - start_sec) 0 and, when |rate| > 0.001,
real_dur = play_dur / |rate| (otherwise 0). -/
def autoStopDelay (start_pct end_pct dur rate : ℚ) : ℚ :=
  let start_sec := dur * start_pct
  let end_sec := dur * end_pct
  let play_dur := maxQ (end_sec - start_sec) 0
  if 1 / 1000 < absQ rate then play_dur / absQ rate else 0

/-- The auto-stop scheduling tail of trigger_sound_playback: compute the
region's real-time duration from the captured rate, abort and drop any
pending task for the address, then spawn and register a fresh one. -/
def scheduleAutoStop (st : ControllerState) (address : Nat)
    (start_pct end_pct dur rate : ℚ) : ControllerState :=
  let real_dur := autoStopDelay start_pct end_pct dur rate
  let tasks1 :=
    match st.auto_stop_tasks.lookup address with
    | some oldId => abortTask st.tasks oldId
    | none => st.tasks
  let pending1 := st.auto_stop_tasks.filter fun e => e.1 != address
  { auto_stop_tasks := (address, st.nextTaskId) :: pending1
    tasks := tasks1 ++
      [{ id := st.nextTaskId, address := address, delaySeconds := real_dur,
         aborted := false }]
    nextTaskId := st.nextTaskId + 1 }

/-- What a spawned task does when its sleep elapses: nothing if it was
aborted, otherwise it sends Stop(address) to the playback engine. -/
def fireTask (st : ControllerState) (tid : Nat) : Option KiraCommand :=
  match st.tasks.find? (fun t => t.id == tid) with
  | some t => if t.aborted then none else some (KiraCommand.Stop t.address)
  | none => none

/-- Well-formedness of the scheduler state: every spawned task has an id
below the fresh-id counter. -/
def ControllerWf (st : ControllerState) : Prop :=
  ∀ t ∈ st.tasks, t.id < st.nextTaskId

/-! ## Region fractions (src/app/events.rs, handle_encoder_twist) -/

/-- Per-pad playback-region fractions; none models absence from the HashMap
(the handlers use entry(key).or_insert, which inserts the default 0.0 / 1.0). -/
structure RegionState where
  startPoint : Option ℚ
  endPoint : Option ℚ
  deriving DecidableEq

def initialRegion : RegionState := { startPoint := none, endPoint := none }

/-- An encoder twist on Track3 (start point) or Track4 (end point), with the
already-decoded signed delta. -/
inductive RegionTwist where
  | startKnob : Int → RegionTwist
  | endKnob : Int → RegionTwist
  deriving DecidableEq

/-- The Track3/Track4 arms of handle_encoder_twist: move the touched fraction
by delta * 0.005 and clamp the start into [0, end], the end into [start, 1]. -/
def applyTwist (r : RegionState) (tw : RegionTwist) : RegionState :=
  match tw with
  | RegionTwist.startKnob delta =>
      let e := r.endPoint.getD 1
      let s0 := r.startPoint.getD 0
      { startPoint := some (clampQ (s0 + (delta : ℚ) * (5 / 1000)) 0 e)
        endPoint := some e }
  | RegionTwist.endKnob delta =>
      let s := r.startPoint.getD 0
      let e0 := r.endPoint.getD 1
      { startPoint := some s
        endPoint := some (clampQ (e0 + (delta : ℚ) * (5 / 1000)) s 1) }

/-- The invariant claimed for the stored fractions. -/
def RegionInv (r : RegionState) : Prop :=
  0 ≤ r.startPoint.getD 0 ∧ r.startPoint.getD 0 ≤ r.endPoint.getD 1 ∧
    r.endPoint.getD 1 ≤ 1

/-! ## Lemmas about the pre-roll buffer -/

lemma lastN_length_le (n : Nat) (l : List α) : (lastN n l).length ≤ n := by
  simp [lastN]
  omega

lemma lastN_of_length_le {n : Nat} {l : List α} (h : l.length ≤ n) : lastN n l = l := by
  simp [lastN, Nat.sub_eq_zero_of_le h]

lemma lastN_reverse (n : Nat) (l : List α) : (lastN n l).reverse = l.reverse.take n := by
  unfold lastN
  rw [List.reverse_drop]
  rcases le_or_lt n l.length with h | h
  · have h1 : l.length - (l.length - n) = n := by omega
    rw [h1]
  · have h1 : l.length - (l.length - n) = l.length := by omega
    rw [h1, List.take_of_length_le (by simp), List.take_of_length_le (by simp; omega)]

lemma lastN_append_left (n : Nat) (a b : List α) :
    lastN n (lastN n a ++ b) = lastN n (a ++ b) := by
  rw [← List.reverse_inj, lastN_reverse, lastN_reverse, List.reverse_append,
    List.reverse_append, List.take_append_eq_append_take, List.take_append_eq_append_take,
    lastN_reverse, List.take_take]
  congr 2
  simp [Nat.min_def]

lemma recording_ne_listening (p : Path) :
    (State.Recording p = State.Listening) ↔ False := by
  simp

lemma processBlock_format_none {u : UserData} (input : List ℚ) (h : u.format = none) :
    processBlock u input = u := by
  unfold processBlock
  rw [h]

lemma processBlock_recording {u : UserData} {p : Path} {f : AudioFormat} (input : List ℚ)
    (hs : u.state = State.Recording p) (hf : u.format = some f) :
    processBlock u input = { u with buffer := u.buffer ++ blockSamples input } := by
  unfold processBlock ingestTrim ingestAppend
  rw [hf]
  simp [hs]

lemma processBlock_listening {u : UserData} {f : AudioFormat} (input : List ℚ)
    (hs : u.state = State.Listening) (hf : u.format = some f)
    (hcap : 0 < u.pre_buffer_max_samples) :
    processBlock u input =
      { u with buffer :=
          lastN u.pre_buffer_max_samples (u.buffer ++ blockSamples input) } := by
  obtain ⟨fmt, st, buf, cap⟩ := u
  dsimp only at hs hf hcap ⊢
  subst hs hf
  unfold processBlock ingestTrim ingestAppend
  dsimp only
  rw [if_pos rfl, if_pos hcap]
  by_cases hlt : cap < (buf ++ blockSamples input).length
  · rw [if_pos hlt]
    rfl
  · rw [if_neg hlt]
    have h0 : (buf ++ blockSamples input).length - cap = 0 := by omega
    unfold lastN
    rw [h0, List.drop_zero]

lemma processBlock_state (u : UserData) (input : List ℚ) :
    (processBlock u input).state = u.state := by
  obtain ⟨fmt, st, buf, cap⟩ := u
  cases fmt <;> unfold processBlock ingestTrim ingestAppend <;> dsimp only <;>
    split_ifs <;> rfl

lemma processBlock_format (u : UserData) (input : List ℚ) :
    (processBlock u input).format = u.format := by
  obtain ⟨fmt, st, buf, cap⟩ := u
  cases fmt <;> unfold processBlock ingestTrim ingestAppend <;> dsimp only <;>
    split_ifs <;> rfl

lemma processBlock_cap (u : UserData) (input : List ℚ) :
    (processBlock u input).pre_buffer_max_samples = u.pre_buffer_max_samples := by
  obtain ⟨fmt, st, buf, cap⟩ := u
  cases fmt <;> unfold processBlock ingestTrim ingestAppend <;> dsimp only <;>
    split_ifs <;> rfl

lemma foldl_processBlock_recording {f : AudioFormat} {p : Path} :
    ∀ (blocks : List (List ℚ)) (u : UserData),
      u.state = State.Recording p → u.format = some f →
      blocks.foldl processBlock u =
        { u with buffer := u.buffer ++ (blocks.map blockSamples).flatten } := by
  intro blocks
  induction blocks with
  | nil => intro u hs hf; simp
  | cons b rest ih =>
      intro u hs hf
      rw [List.foldl_cons, processBlock_recording b hs hf,
        ih _ (by simp [hs]) (by simp [hf])]
      simp

lemma foldl_processBlock_listening {f : AudioFormat} :
    ∀ (blocks : List (List ℚ)) (u : UserData),
      u.state = State.Listening → u.format = some f →
      0 < u.pre_buffer_max_samples →
      u.buffer.length ≤ u.pre_buffer_max_samples →
      blocks.foldl processBlock u =
        { u with buffer :=
            (lastN u.pre_buffer_max_samples
              (u.buffer ++ (blocks.map blockSamples).flatten)) } := by
  intro blocks
  induction blocks with
  | nil =>
      intro u hs hf hcap hlen
      simp [lastN_of_length_le hlen]
  | cons b rest ih =>
      intro u hs hf hcap hlen
      have hlenb := lastN_length_le u.pre_buffer_max_samples (u.buffer ++ blockSamples b)
      rw [List.foldl_cons, processBlock_listening b hs hf hcap,
        ih _ (by simp [hs]) (by simp [hf]) (by simpa using hcap) (by simpa using hlenb)]
      dsimp only
      simp only [List.map_cons, List.flatten_cons]
      rw [lastN_append_left, List.append_assoc]

lemma foldl_processBlock_listening_cons {u : UserData} {f : AudioFormat}
    (b : List ℚ) (rest : List (List ℚ))
    (hs : u.state = State.Listening) (hf : u.format = some f)
    (hcap : 0 < u.pre_buffer_max_samples) :
    (b :: rest).foldl processBlock u =
      { u with buffer :=
          (lastN u.pre_buffer_max_samples
            (u.buffer ++ ((b :: rest).map blockSamples).flatten)) } := by
  have hlenb := lastN_length_le u.pre_buffer_max_samples (u.buffer ++ blockSamples b)
  rw [List.foldl_cons, processBlock_listening b hs hf hcap,
    foldl_processBlock_listening (f := f) rest _ (by simp [hs]) (by simp [hf])
      (by simpa using hcap) (by simpa using hlenb)]
  dsimp only
  simp only [List.map_cons, List.flatten_cons]
  rw [lastN_append_left, List.append_assoc]

/-! ## Lemmas about command handling -/

lemma handleCommand_start_listening {u : UserData} {f : AudioFormat} (p : Path)
    (hf : u.format = some f) (hs : u.state = State.Listening) :
    handleCommand u (AudioCommand.Start p) =
      ({ u with state := State.Recording p }, none) := by
  obtain ⟨fmt, st, buf, cap⟩ := u
  dsimp only at hf hs
  subst hf hs
  rfl

lemma handleCommand_start_no_format {u : UserData} (p : Path) (hf : u.format = none) :
    handleCommand u (AudioCommand.Start p) = (u, none) := by
  obtain ⟨fmt, st, buf, cap⟩ := u
  dsimp only at hf
  subst hf
  rfl

lemma handleCommand_start_recording {u : UserData} (p q : Path)
    (hs : u.state = State.Recording q) :
    handleCommand u (AudioCommand.Start p) = (u, none) := by
  obtain ⟨fmt, st, buf, cap⟩ := u
  dsimp only at hs
  subst hs
  cases fmt <;> rfl

lemma handleCommand_stop_recording {u : UserData} {p : Path}
    (hs : u.state = State.Recording p) :
    handleCommand u AudioCommand.Stop =
      ({ u with state := State.Listening, buffer := [] },
        u.format.map fun fmt => (u.buffer, fmt, p)) := by
  obtain ⟨fmt, st, buf, cap⟩ := u
  dsimp only at hs
  subst hs
  cases fmt <;> rfl

lemma handleCommand_stop_listening {u : UserData} (hs : u.state = State.Listening) :
    handleCommand u AudioCommand.Stop = (u, none) := by
  obtain ⟨fmt, st, buf, cap⟩ := u
  dsimp only at hs
  subst hs
  rfl

/-! ## Boundedness of stored samples -/

lemma le_clampQ {lo hi : ℚ} (x : ℚ) (h : lo ≤ hi) : lo ≤ clampQ x lo hi := by
  unfold clampQ
  split_ifs <;> linarith

lemma clampQ_le {lo hi : ℚ} (x : ℚ) (h : lo ≤ hi) : clampQ x lo hi ≤ hi := by
  unfold clampQ
  split_ifs <;> linarith

lemma blockSamples_bounded (input : List ℚ) : ∀ y ∈ blockSamples input, |y| ≤ 1 := by
  intro y hy
  simp only [blockSamples, List.mem_map] at hy
  obtain ⟨x, _, rfl⟩ := hy
  rw [abs_le]
  exact ⟨le_clampQ _ (by norm_num), clampQ_le _ (by norm_num)⟩

lemma processBlock_buffer_mem {u : UserData} {input : List ℚ} {y : ℚ}
    (hy : y ∈ (processBlock u input).buffer) :
    y ∈ u.buffer ∨ y ∈ blockSamples input := by
  obtain ⟨fmt, st, buf, cap⟩ := u
  cases fmt
  · exact Or.inl hy
  · unfold processBlock ingestTrim ingestAppend at hy
    dsimp only at hy ⊢
    split_ifs at hy with h1 h2 h3
    · exact List.mem_append.mp ((List.drop_sublist _ _).subset hy)
    · exact List.mem_append.mp hy
    · exact List.mem_append.mp hy
    · exact List.mem_append.mp hy

lemma processBlock_bounded (u : UserData) (input : List ℚ)
    (hb : ∀ y ∈ u.buffer, |y| ≤ 1) :
    ∀ y ∈ (processBlock u input).buffer, |y| ≤ 1 := by
  intro y hy
  rcases processBlock_buffer_mem hy with h | h
  · exact hb y h
  · exact blockSamples_bounded input y h

lemma handleCommand_bounded (u : UserData) (c : AudioCommand)
    (hb : ∀ y ∈ u.buffer, |y| ≤ 1) :
    ∀ y ∈ ((handleCommand u c).1).buffer, |y| ≤ 1 := by
  intro y hy
  apply hb
  obtain ⟨fmt, st, buf, cap⟩ := u
  cases c <;> cases fmt <;> cases st <;> simp [handleCommand] at hy <;> exact hy

lemma save_samples_eq {disk : FsOracle} {buffer : List ℚ} {fmt : AudioFormat}
    {path : Path} {file : WavFile}
    (h : save_recording_from_buffer disk buffer fmt path = some file) :
    file.samples = buffer := by
  unfold save_recording_from_buffer at h
  split_ifs at h
  all_goals cases h
  rfl

/-! ## Lemmas about the voice table -/

lemma lookup_none_not_mem {β : Type} {l : List (Nat × β)} {key : Nat}
    (h : l.lookup key = none) : key ∉ l.map Prod.fst := by
  induction l with
  | nil => simp
  | cons e rest ih =>
      obtain ⟨k, v⟩ := e
      cases hbeq : (key == k) with
      | true =>
          simp [List.lookup_cons, hbeq] at h
      | false =>
          simp only [List.lookup_cons, hbeq] at h
          have hne : key ≠ k := by simpa using hbeq
          simp only [List.map_cons, List.mem_cons]
          rintro (h1 | h2)
          · exact hne h1
          · exact ih h h2

lemma not_mem_filtered_keys (handles : VoiceTable) (key : Nat) :
    key ∉ (handles.filter fun e => e.1 != key).map Prod.fst := by
  intro hmem
  obtain ⟨e, he, hk⟩ := List.mem_map.mp hmem
  have hp := (List.mem_filter.mp he).2
  rw [hk] at hp
  simp at hp

lemma filtered_keysNodup {handles : VoiceTable} (key : Nat)
    (h : voiceKeysNodup handles) :
    voiceKeysNodup (handles.filter fun e => e.1 != key) :=
  List.Nodup.sublist (List.Sublist.map Prod.fst (List.filter_sublist handles)) h

lemma stop_sound_keysNodup {handles : VoiceTable} (key : Nat)
    (h : voiceKeysNodup handles) :
    voiceKeysNodup (stop_sound_if_playing handles key).1 := by
  unfold stop_sound_if_playing
  cases handles.lookup key
  · exact h
  · exact filtered_keysNodup key h

lemma runKiraStep_keysNodup (playOk : Bool) (handles : VoiceTable) (cmd : KiraCommand)
    (h : voiceKeysNodup handles) : voiceKeysNodup (runKiraStep playOk handles cmd).1 := by
  cases cmd with
  | Play req =>
      unfold runKiraStep
      cases playOk
      · exact stop_sound_keysNodup req.pad_key h
      · show voiceKeysNodup ((req.pad_key, ⟨req⟩) ::
          (stop_sound_if_playing handles req.pad_key).1)
        unfold stop_sound_if_playing
        cases hl : handles.lookup req.pad_key
        · exact List.Nodup.cons (lookup_none_not_mem hl) h
        · exact List.Nodup.cons (not_mem_filtered_keys handles req.pad_key)
            (filtered_keysNodup req.pad_key h)
  | Stop key => exact stop_sound_keysNodup key h
  | SetPlaybackRate key rate =>
      unfold runKiraStep
      dsimp only
      cases hl : List.lookup key handles <;> dsimp only <;> exact h
  | SetVolume key vol =>
      unfold runKiraStep
      dsimp only
      cases hl : List.lookup key handles <;> dsimp only <;> exact h

lemma runKira_keysNodup (steps : List (Bool × KiraCommand)) :
    ∀ handles : VoiceTable, voiceKeysNodup handles →
      voiceKeysNodup (runKira steps handles) := by
  induction steps with
  | nil => intro handles h; exact h
  | cons s rest ih =>
      intro handles h
      exact ih _ (runKiraStep_keysNodup s.1 handles s.2 h)

lemma countP_key_le_one {β : Type} {l : List (Nat × β)}
    (h : (l.map Prod.fst).Nodup) (addr : Nat) :
    l.countP (fun e => e.1 == addr) ≤ 1 := by
  induction l with
  | nil => simp
  | cons e rest ih =>
      rw [List.map_cons, List.nodup_cons] at h
      rw [List.countP_cons]
      by_cases hk : e.1 = addr
      · have h0 : rest.countP (fun x => x.1 == addr) = 0 := by
          apply List.countP_eq_zero.mpr
          intro a ha
          simp only [beq_iff_eq]
          intro heq
          exact h.1 (hk ▸ heq ▸ List.mem_map_of_mem Prod.fst ha)
        simp [h0, hk]
      · simp only [beq_iff_eq, hk, if_false]
        simpa using ih h.2

lemma countP_filtered_key_zero (l : VoiceTable) (addr : Nat) :
    (l.filter fun e => e.1 != addr).countP (fun e => e.1 == addr) = 0 := by
  apply List.countP_eq_zero.mpr
  intro a ha
  have hp := (List.mem_filter.mp ha).2
  simpa using fun heq => by simp [heq] at hp

/-! ## Lemmas about the auto-stop scheduler -/

lemma find?_id_eq_none {tasks : List AutoStopTask} {n : Nat}
    (h : ∀ t ∈ tasks, t.id < n) : tasks.find? (fun t => t.id == n) = none := by
  apply List.find?_eq_none.mpr
  intro t ht
  simpa using Nat.ne_of_lt (h t ht)

lemma abortTask_append (a b : List AutoStopTask) (tid : Nat) :
    abortTask (a ++ b) tid = abortTask a tid ++ abortTask b tid := by
  unfold abortTask
  rw [List.map_append]

lemma abortTask_ids_lt {tasks : List AutoStopTask} {tid n : Nat}
    (h : ∀ t ∈ tasks, t.id < n) : ∀ t ∈ abortTask tasks tid, t.id < n := by
  intro t ht
  obtain ⟨t0, ht0, rfl⟩ := List.mem_map.mp ht
  have hlt := h t0 ht0
  by_cases h1 : t0.id = tid <;> simpa [h1] using hlt

/-! ## Lemmas about the region fractions -/

lemma initial_region_inv : RegionInv initialRegion := by
  refine ⟨le_refl 0, ?_, le_refl 1⟩
  norm_num [initialRegion]

lemma applyTwist_inv {r : RegionState} (tw : RegionTwist) (h : RegionInv r) :
    RegionInv (applyTwist r tw) := by
  obtain ⟨h0, h1, h2⟩ := h
  cases tw with
  | startKnob delta =>
      have he : (0 : ℚ) ≤ r.endPoint.getD 1 := h0.trans h1
      exact ⟨le_clampQ _ he, clampQ_le _ he, h2⟩
  | endKnob delta =>
      have hs : r.startPoint.getD 0 ≤ 1 := h1.trans h2
      exact ⟨h0, le_clampQ _ hs, clampQ_le _ hs⟩

lemma foldl_applyTwist_inv (twists : List RegionTwist) :
    ∀ r : RegionState, RegionInv r → RegionInv (twists.foldl applyTwist r) := by
  induction twists with
  | nil => intro r h; exact h
  | cons t rest ih => intro r h; exact ih _ (applyTwist_inv t h)

/-! ## Concrete states used by witnesses and counterexamples -/

/-- A mono 4 Hz format, giving a pre-roll capacity of 4 * 1 * 1 = 4 samples. -/
def demoFormat : AudioFormat := { rate := 4, channels := 1 }

def demoListening : UserData :=
  { format := some demoFormat, state := State.Listening, buffer := [],
    pre_buffer_max_samples := 4 }

def demoRecording : UserData :=
  { format := some demoFormat, state := State.Recording "take.wav",
    buffer := [1/2, -1/2], pre_buffer_max_samples := 4 }

/-- A recording state whose buffer is still empty (immediate Stop after Start). -/
def emptyRecording : UserData :=
  { format := some demoFormat, state := State.Recording "take.wav", buffer := [],
    pre_buffer_max_samples := 4 }

def demoSettings : StaticSoundSettings :=
  { volume := 1, playback_rate := 1, start_position := 0 }

/-- Two play requests for the same pad address with different sample data. -/
def demoSoundA : KiraPlayRequest :=
  { pad_key := 5, sound_data := ⟨0⟩, settings := demoSettings }

def demoSoundB : KiraPlayRequest :=
  { pad_key := 5, sound_data := ⟨1⟩, settings := demoSettings }

def c6AfterListen : UserData :=
  ([[1], [2], [3], [4], [5]] : List (List ℚ)).foldl processBlock demoListening

def c6AfterStart : UserData :=
  (handleCommand c6AfterListen (AudioCommand.Start "p.wav")).1

def c6AfterMore : UserData :=
  ([[6], [7]] : List (List ℚ)).foldl processBlock c6AfterStart

def c6Final : UserData × Option WavFile × Option AppCommand :=
  commandStep FsOracle.allOk c6AfterMore AudioCommand.Stop

/-! ## Claim theorems -/

/-- C1 (no-loss-on-transition): whatever samples the buffer holds immediately
before a successfully handled Start are still present, in order, at the front
of the buffer that the subsequent Stop hands to the codec writer, when only
ingest appends happen in between. -/
theorem no_loss_on_transition (u : UserData) (f : AudioFormat) (p : Path)
    (blocks : List (List ℚ)) (hf : u.format = some f) (hs : u.state = State.Listening) :
    ∃ tail : List ℚ,
      (handleCommand
          (blocks.foldl processBlock (handleCommand u (AudioCommand.Start p)).1)
          AudioCommand.Stop).2 =
        some (u.buffer ++ tail, f, p) := by
  rw [handleCommand_start_listening p hf hs]
  rw [foldl_processBlock_recording (f := f) (p := p) blocks _ (by simp) (by simp [hf])]
  rw [handleCommand_stop_recording (p := p) (by simp)]
  refine ⟨(blocks.map blockSamples).flatten, ?_⟩
  simp [hf]

/-- C1 witness. -/
theorem no_loss_on_transition_witness :
    ∃ tail : List ℚ,
      (handleCommand
          (([[1/4]] : List (List ℚ)).foldl processBlock
            (handleCommand demoListening (AudioCommand.Start "p.wav")).1)
          AudioCommand.Stop).2 =
        some (demoListening.buffer ++ tail, demoFormat, "p.wav") :=
  no_loss_on_transition demoListening demoFormat "p.wav" [[1/4]] rfl rfl

/-- C2 (pre-roll invariant): while Listening with a negotiated format of
positive capacity, after every ingest call the buffer length stays within
pre_buffer_max_samples, and the buffer is exactly the trailing window of the
full arrived (gain-processed) sample stream — eviction removes only the
oldest samples from the front.  While Recording, ingest only appends and the
buffer grows without eviction. -/
theorem pre_roll_invariant :
    (∀ (u : UserData) (f : AudioFormat) (b : List ℚ) (rest : List (List ℚ)),
        u.state = State.Listening → u.format = some f →
        0 < u.pre_buffer_max_samples →
        ((b :: rest).foldl processBlock u).buffer.length ≤ u.pre_buffer_max_samples ∧
        ((b :: rest).foldl processBlock u).buffer =
          lastN u.pre_buffer_max_samples
            (u.buffer ++ ((b :: rest).map blockSamples).flatten)) ∧
    (∀ (u : UserData) (p : Path) (input : List ℚ),
        u.state = State.Recording p → u.format.isSome = true →
        processBlock u input = { u with buffer := u.buffer ++ blockSamples input }) := by
  constructor
  · intro u f b rest hs hf hcap
    rw [foldl_processBlock_listening_cons b rest hs hf hcap]
    exact ⟨lastN_length_le _ _, rfl⟩
  · intro u p input hs hf
    obtain ⟨f, hf⟩ := Option.isSome_iff_exists.mp hf
    exact processBlock_recording input hs hf

/-- C2 witness. -/
theorem pre_roll_invariant_witness :
    ((([[1/2, 1/2, 1/2], [1/2, 1/2, 1/2]] : List (List ℚ)).foldl processBlock
        demoListening).buffer.length ≤ demoListening.pre_buffer_max_samples ∧
      (([[1/2, 1/2, 1/2], [1/2, 1/2, 1/2]] : List (List ℚ)).foldl processBlock
        demoListening).buffer =
        lastN demoListening.pre_buffer_max_samples
          (demoListening.buffer ++
            (([[1/2, 1/2, 1/2], [1/2, 1/2, 1/2]] : List (List ℚ)).map
              blockSamples).flatten)) ∧
    processBlock demoRecording [1/4] =
      { demoRecording with buffer := demoRecording.buffer ++ blockSamples [1/4] } :=
  ⟨pre_roll_invariant.1 demoListening demoFormat [1/2, 1/2, 1/2] [[1/2, 1/2, 1/2]]
      rfl rfl (by decide),
    pre_roll_invariant.2 demoRecording "take.wav" [1/4] rfl rfl⟩

/-- C3 counterexample: handling Stop while Recording over an empty buffer
writes no file (save_recording_from_buffer returns immediately), yet the
command loop still emits the FileSaved notification — the notification is
sent unconditionally whenever a save was requested, so it is not equivalent
to a successful write. -/
theorem notification_without_file :
    (commandStep FsOracle.allOk emptyRecording AudioCommand.Stop).2.1 = none ∧
    (commandStep FsOracle.allOk emptyRecording AudioCommand.Stop).2.2 =
      some (AppCommand.FileSaved "take.wav") := by
  constructor <;> rfl

/-- C3 amended: a FileSaved(path) notification is emitted iff the command is
Stop handled while Recording with a known format (iff the buffer was taken
for saving), regardless of buffer emptiness or writer success; a file on disk
is produced iff, in addition, the taken buffer was non-empty and the WAV
writer could be created. -/
theorem notification_semantics (disk : FsOracle) (u : UserData) (c : AudioCommand) :
    ((commandStep disk u c).2.2.isSome = true ↔
      (c = AudioCommand.Stop ∧
        ∃ p fmt, u.state = State.Recording p ∧ u.format = some fmt)) ∧
    ((commandStep disk u c).2.1.isSome = true ↔
      (c = AudioCommand.Stop ∧
        (∃ p fmt, u.state = State.Recording p ∧ u.format = some fmt) ∧
        u.buffer ≠ [] ∧ disk.writerCreateOk = true)) := by
  obtain ⟨fmt, st, buf, cap⟩ := u
  obtain ⟨w⟩ := disk
  cases c with
  | Start p =>
      cases fmt <;> cases st <;> simp [commandStep, handleCommand]
  | Stop =>
      cases fmt <;> cases st <;>
        simp [commandStep, handleCommand, save_recording_from_buffer] <;>
        cases w <;> by_cases hb : buf = [] <;>
        simp [hb, List.isEmpty_iff]

/-- C4 (stop semantics and idempotent refusal): Stop while Recording(p) moves
the mode back to Listening and takes the entire accumulated buffer, leaving an
empty one, handing (buffer, format, p) to the writer when the format is known;
Stop while Listening leaves the whole state unchanged and requests no save. -/
theorem stop_semantics :
    (∀ (u : UserData) (p : Path), u.state = State.Recording p →
        (handleCommand u AudioCommand.Stop).1 =
          { u with state := State.Listening, buffer := [] } ∧
        (handleCommand u AudioCommand.Stop).2 =
          u.format.map fun fmt => (u.buffer, fmt, p)) ∧
    (∀ u : UserData, u.state = State.Listening →
        handleCommand u AudioCommand.Stop = (u, none)) := by
  constructor
  · intro u p hs
    rw [handleCommand_stop_recording hs]
    exact ⟨rfl, rfl⟩
  · intro u hs
    exact handleCommand_stop_listening hs

/-- C4 witness. -/
theorem stop_semantics_witness :
    ((handleCommand demoRecording AudioCommand.Stop).1 =
        { demoRecording with state := State.Listening, buffer := [] } ∧
      (handleCommand demoRecording AudioCommand.Stop).2 =
        demoRecording.format.map fun fmt => (demoRecording.buffer, fmt, "take.wav")) ∧
    handleCommand demoListening AudioCommand.Stop = (demoListening, none) :=
  ⟨stop_semantics.1 demoRecording "take.wav" rfl, stop_semantics.2 demoListening rfl⟩

/-- C5 (start semantics): Start(p) moves Listening to Recording(p) when the
format is known; with an unknown format, or while already Recording, the
command is a no-op leaving the entire state unchanged. -/
theorem start_semantics :
    (∀ (u : UserData) (f : AudioFormat) (p : Path),
        u.format = some f → u.state = State.Listening →
        handleCommand u (AudioCommand.Start p) =
          ({ u with state := State.Recording p }, none)) ∧
    (∀ (u : UserData) (p : Path), u.format = none →
        handleCommand u (AudioCommand.Start p) = (u, none)) ∧
    (∀ (u : UserData) (p q : Path), u.state = State.Recording q →
        handleCommand u (AudioCommand.Start p) = (u, none)) :=
  ⟨fun _ f p hf hs => handleCommand_start_listening p hf hs,
    fun _ p hf => handleCommand_start_no_format p hf,
    fun _ p q hs => handleCommand_start_recording p q hs⟩

/-- C5 witness. -/
theorem start_semantics_witness :
    handleCommand demoListening (AudioCommand.Start "q.wav") =
      ({ demoListening with state := State.Recording "q.wav" }, none) ∧
    handleCommand initialUserData (AudioCommand.Start "q.wav") = (initialUserData, none) ∧
    handleCommand demoRecording (AudioCommand.Start "q.wav") = (demoRecording, none) :=
  ⟨start_semantics.1 demoListening demoFormat "q.wav" rfl rfl,
    start_semantics.2.1 initialUserData "q.wav" rfl,
    start_semantics.2.2 demoRecording "q.wav" "take.wav" rfl⟩

/-- C6 counterexample: the scenario overlooks the ingest gain-and-clamp stage.
With pre-roll capacity 4 and one channel, ingesting [1,2,3,4,5] while
Listening stores clamp(2 * s, -1, 1) = 1 for every sample, so the buffer ends
up [1,1,1,1], not [2,3,4,5]. -/
theorem concrete_scenario_counterexample : c6AfterListen.buffer ≠ [2, 3, 4, 5] := by
  norm_num [c6AfterListen, demoListening, demoFormat, processBlock, ingestTrim,
    ingestAppend, blockSamples, clampQ, GAIN_FACTOR, lastN]

/-- C6 amended: the scenario holds with every stored sample being the
gain-processed value clamp(2 * s, -1, 1) of its input sample s: after the
Listening ingests the buffer is blockSamples [2,3,4,5]; after Start("p.wav")
and ingesting [6],[7] it is blockSamples [2,3,4,5,6,7]; Stop produces the
file at "p.wav" containing exactly those samples in that order, the buffer
resets to empty, and the state returns to Listening. -/
theorem concrete_scenario_processed :
    c6AfterListen.buffer = blockSamples [2, 3, 4, 5] ∧
    c6AfterMore.buffer = blockSamples [2, 3, 4, 5, 6, 7] ∧
    c6Final.2.1 = some
      { path := "p.wav",
        spec := { channels := 1, sample_rate := 4, bits_per_sample := 32,
                  float_format := true },
        samples := blockSamples [2, 3, 4, 5, 6, 7] } ∧
    c6Final.1.buffer = [] ∧
    c6Final.1.state = State.Listening := by
  norm_num [c6Final, c6AfterMore, c6AfterStart, c6AfterListen, demoListening,
    demoFormat, commandStep, handleCommand, processBlock, ingestTrim, ingestAppend,
    blockSamples, clampQ, GAIN_FACTOR, lastN, save_recording_from_buffer,
    FsOracle.allOk, recording_ne_listening]

/-- C9 (ingest gain and clamp): with a known format, the append phase of
ingest extends the buffer with exactly clamp(GAIN_FACTOR * x, -1, 1) for each
input sample x, in order, and the whole callback is that append followed by
the Listening-only trim; consequently sample boundedness (|y| ≤ 1) is
preserved by ingest and by command handling, and holds of every sample of
any file the writer produces from a bounded buffer. -/
theorem ingest_gain_clamp :
    (∀ (u : UserData) (f : AudioFormat) (input : List ℚ), u.format = some f →
        (ingestAppend u input).buffer =
          u.buffer ++ input.map (fun x => clampQ (x * GAIN_FACTOR) (-1) 1) ∧
        processBlock u input = ingestTrim (ingestAppend u input)) ∧
    (∀ (u : UserData) (input : List ℚ),
        (∀ y ∈ u.buffer, |y| ≤ 1) → ∀ y ∈ (processBlock u input).buffer, |y| ≤ 1) ∧
    (∀ (u : UserData) (c : AudioCommand),
        (∀ y ∈ u.buffer, |y| ≤ 1) → ∀ y ∈ ((handleCommand u c).1).buffer, |y| ≤ 1) ∧
    (∀ (disk : FsOracle) (buffer : List ℚ) (fmt : AudioFormat) (path : Path)
        (file : WavFile),
        save_recording_from_buffer disk buffer fmt path = some file →
        (∀ y ∈ buffer, |y| ≤ 1) → ∀ y ∈ file.samples, |y| ≤ 1) := by
  refine ⟨?_, processBlock_bounded, handleCommand_bounded, ?_⟩
  · intro u f input hf
    refine ⟨rfl, ?_⟩
    obtain ⟨fmt, st, buf, cap⟩ := u
    dsimp only at hf
    subst hf
    rfl
  · intro disk buffer fmt path file hsave hb
    rw [save_samples_eq hsave]
    exact hb

/-- C9 witness. -/
theorem ingest_gain_clamp_witness :
    (ingestAppend demoRecording [2, -3]).buffer =
      demoRecording.buffer ++ [2, -3].map (fun x => clampQ (x * GAIN_FACTOR) (-1) 1) ∧
    processBlock demoRecording [2, -3] = ingestTrim (ingestAppend demoRecording [2, -3]) :=
  ingest_gain_clamp.1 demoRecording demoFormat [2, -3] rfl

/-! ## Playback and scheduler claim support -/

lemma runKiraStep_play_true (handles : VoiceTable) (req : KiraPlayRequest) :
    runKiraStep true handles (KiraCommand.Play req) =
      ((req.pad_key, ⟨req⟩) :: (stop_sound_if_playing handles req.pad_key).1,
        (stop_sound_if_playing handles req.pad_key).2) := by
  unfold runKiraStep
  simp

lemma stop_sound_eq_of_lookup {handles : VoiceTable} {key : Nat}
    {h : StaticSoundHandle} (hl : handles.lookup key = some h) :
    stop_sound_if_playing handles key =
      (handles.filter fun e => e.1 != key,
        [KiraEffect.stoppedVoice key h fast_tween]) := by
  unfold stop_sound_if_playing
  rw [hl]

lemma scheduleTasks_ids_lt (st : ControllerState) (addr : Nat) (hw : ControllerWf st) :
    ∀ t ∈ (match st.auto_stop_tasks.lookup addr with
      | some oldId => abortTask st.tasks oldId
      | none => st.tasks), t.id < st.nextTaskId := by
  cases hl : st.auto_stop_tasks.lookup addr <;> dsimp only
  · exact hw
  · exact abortTask_ids_lt hw

lemma scheduleAutoStop_tasks_eq (st : ControllerState) (addr : Nat) (s e d r : ℚ) :
    (scheduleAutoStop st addr s e d r).tasks =
      (match st.auto_stop_tasks.lookup addr with
        | some oldId => abortTask st.tasks oldId
        | none => st.tasks) ++
      [mkTask st.nextTaskId addr (autoStopDelay s e d r) false] := rfl

lemma scheduleAutoStop_pending_eq (st : ControllerState) (addr : Nat) (s e d r : ℚ) :
    (scheduleAutoStop st addr s e d r).auto_stop_tasks =
      (addr, st.nextTaskId) :: st.auto_stop_tasks.filter (fun x => x.1 != addr) := rfl

/-! ## Remaining claim theorems -/

/-- C7 (single voice per address): with distinct keys, every command sequence
keeps at most one voice per pad address; and after Play(addr, A) immediately
followed by Play(addr, B) with no intervening Stop (both plays succeeding),
exactly one voice is registered at addr, it is the one created for B, and the
second step stopped the voice for A with the short fade before inserting B. -/
theorem single_voice_per_address :
    (∀ (steps : List (Bool × KiraCommand)) (handles : VoiceTable) (addr : Nat),
        voiceKeysNodup handles →
        (runKira steps handles).countP (fun e => e.1 == addr) ≤ 1) ∧
    (∀ (handles : VoiceTable) (addr : Nat) (A B : KiraPlayRequest),
        voiceKeysNodup handles → A.pad_key = addr → B.pad_key = addr →
        (runKiraStep true (runKiraStep true handles (KiraCommand.Play A)).1
            (KiraCommand.Play B)).1.lookup addr = some ⟨B⟩ ∧
        (runKiraStep true (runKiraStep true handles (KiraCommand.Play A)).1
            (KiraCommand.Play B)).1.countP (fun e => e.1 == addr) = 1 ∧
        (runKiraStep true (runKiraStep true handles (KiraCommand.Play A)).1
            (KiraCommand.Play B)).2 =
          [KiraEffect.stoppedVoice addr ⟨A⟩ fast_tween]) := by
  constructor
  · intro steps handles addr h
    exact countP_key_le_one (runKira_keysNodup steps handles h) addr
  · intro handles addr A B hn hA hB
    subst hA
    have hl1 : ((A.pad_key, (⟨A⟩ : StaticSoundHandle)) ::
        (stop_sound_if_playing handles A.pad_key).1).lookup B.pad_key =
        some ⟨A⟩ := by
      rw [hB]
      simp [List.lookup_cons]
    rw [runKiraStep_play_true handles A, runKiraStep_play_true _ B,
      stop_sound_eq_of_lookup hl1]
    dsimp only
    refine ⟨?_, ?_, ?_⟩
    · rw [hB]
      simp [List.lookup_cons]
    · rw [List.countP_cons, hB]
      simp [countP_filtered_key_zero]
    · rw [hB]

/-- C7 witness. -/
theorem single_voice_per_address_witness :
    (runKiraStep true (runKiraStep true [] (KiraCommand.Play demoSoundA)).1
        (KiraCommand.Play demoSoundB)).1.lookup 5 = some ⟨demoSoundB⟩ ∧
    (runKiraStep true (runKiraStep true [] (KiraCommand.Play demoSoundA)).1
        (KiraCommand.Play demoSoundB)).1.countP (fun e => e.1 == 5) = 1 ∧
    (runKiraStep true (runKiraStep true [] (KiraCommand.Play demoSoundA)).1
        (KiraCommand.Play demoSoundB)).2 =
      [KiraEffect.stoppedVoice 5 ⟨demoSoundA⟩ fast_tween] :=
  single_voice_per_address.2 [] 5 demoSoundA demoSoundB
    (by simp [voiceKeysNodup]) rfl rfl

/-- C8 counterexample: an explicit Stop(5) is handled entirely inside
run_kira_loop, which removes the voice from the table; no code path marks the
pending auto-stop task aborted (only a re-trigger, a pad deletion or a
FileSaved notification does), so the scheduled task survives the explicit
Stop and still fires its own Stop(5) when its sleep elapses — contradicting
the claim that an explicit Stop cancels it. -/
theorem auto_stop_explicit_stop_counterexample :
    (runKiraStep true [(5, ⟨demoSoundA⟩)] (KiraCommand.Stop 5)).1 = [] ∧
    fireTask (scheduleAutoStop initialController 5 (1/4) (3/4) 4 1) 0 =
      some (KiraCommand.Stop 5) := by
  constructor
  · simp [runKiraStep, stop_sound_if_playing, List.lookup_cons]
  · simp [fireTask, scheduleAutoStop, initialController, List.find?]

/-- C8 amended: a voice created with region fractions s ≤ e of a sample of
duration d ≥ 0 at captured rate r (with the source's |r| > 0.001 guard, always
met by r = 2^(pitch/12)) schedules a one-shot task with delay exactly
(e - s) * d / |r| which, if never cancelled, fires Stop(address); a re-trigger
for the same address aborts the pending task so it never fires; an explicit
Stop(address) is processed by the playback engine alone — it does not cancel
the pending task, whose eventual Stop is then a no-op on the voiceless
address. -/
theorem deferred_auto_stop (st : ControllerState) (addr : Nat) (s e d r : ℚ)
    (hw : ControllerWf st) (hse : s ≤ e) (hd : 0 ≤ d) (hr : 1 / 1000 < absQ r) :
    ((scheduleAutoStop st addr s e d r).tasks.find?
        (fun t => t.id == st.nextTaskId)).map AutoStopTask.delaySeconds =
      some ((e - s) * d / absQ r) ∧
    fireTask (scheduleAutoStop st addr s e d r) st.nextTaskId =
      some (KiraCommand.Stop addr) ∧
    (∀ s2 e2 d2 r2 : ℚ,
        fireTask (scheduleAutoStop (scheduleAutoStop st addr s e d r) addr s2 e2 d2 r2)
          st.nextTaskId = none) ∧
    (∀ vt : VoiceTable, vt.lookup addr = none →
        runKiraStep true vt (KiraCommand.Stop addr) = (vt, [])) := by
  have hT1 := scheduleTasks_ids_lt st addr hw
  have hfind : (scheduleAutoStop st addr s e d r).tasks.find?
      (fun t => t.id == st.nextTaskId) =
      some (mkTask st.nextTaskId addr (autoStopDelay s e d r) false) := by
    rw [scheduleAutoStop_tasks_eq, List.find?_append, find?_id_eq_none hT1]
    simp [List.find?, mkTask]
  refine ⟨?_, ?_, ?_, ?_⟩
  · rw [hfind]
    show some (autoStopDelay s e d r) = some ((e - s) * d / absQ r)
    have h1 : (0 : ℚ) ≤ d * e - d * s := by nlinarith
    have h2 : maxQ (d * e - d * s) 0 = d * e - d * s := by
      unfold maxQ
      rw [if_neg (not_lt.2 h1)]
    unfold autoStopDelay
    dsimp only
    rw [if_pos hr, h2]
    congr 1
    ring
  · unfold fireTask
    rw [hfind]
    rfl
  · intro s2 e2 d2 r2
    have hl2 : (scheduleAutoStop st addr s e d r).auto_stop_tasks.lookup addr =
        some st.nextTaskId := by
      rw [scheduleAutoStop_pending_eq]
      simp [List.lookup_cons]
    have habort1 : abortTask [mkTask st.nextTaskId addr (autoStopDelay s e d r) false]
          st.nextTaskId =
        [mkTask st.nextTaskId addr (autoStopDelay s e d r) true] := by
      unfold abortTask mkTask
      simp
    unfold fireTask
    rw [scheduleAutoStop_tasks_eq (scheduleAutoStop st addr s e d r) addr s2 e2 d2 r2,
      hl2]
    dsimp only
    rw [scheduleAutoStop_tasks_eq st addr s e d r, abortTask_append, habort1,
      List.find?_append, List.find?_append, find?_id_eq_none (abortTask_ids_lt hT1)]
    simp [List.find?, mkTask]
  · intro vt hv
    unfold runKiraStep stop_sound_if_playing
    dsimp only
    rw [hv]

/-- C8 witness, at the spec's own example: region fractions 1/4 and 3/4 of a
4-second sample at rate 1 give a scheduled delay of exactly 2 seconds, and
the un-cancelled task fires Stop(5). -/
theorem deferred_auto_stop_witness :
    ((scheduleAutoStop initialController 5 (1/4) (3/4) 4 1).tasks.find?
        (fun t => t.id == initialController.nextTaskId)).map
      AutoStopTask.delaySeconds = some ((3/4 - 1/4) * 4 / absQ 1) ∧
    fireTask (scheduleAutoStop initialController 5 (1/4) (3/4) 4 1)
      initialController.nextTaskId = some (KiraCommand.Stop 5) :=
  ⟨(deferred_auto_stop initialController 5 (1/4) (3/4) 4 1
      (by intro t ht; simp [initialController] at ht) (by norm_num) (by norm_num)
      (by norm_num [absQ])).1,
    (deferred_auto_stop initialController 5 (1/4) (3/4) 4 1
      (by intro t ht; simp [initialController] at ht) (by norm_num) (by norm_num)
      (by norm_num [absQ])).2.1⟩

/-- C10 (region bounds invariant): starting from the default (absent) region
entries, after any sequence of start-point and end-point encoder twists the
stored fractions satisfy 0 ≤ start ≤ end ≤ 1, and hence the derived play
duration (end - start) * total_duration is never negative for a nonnegative
total duration. -/
theorem region_bounds_invariant (twists : List RegionTwist) :
    RegionInv (twists.foldl applyTwist initialRegion) ∧
    (∀ d : ℚ, 0 ≤ d →
      0 ≤ ((twists.foldl applyTwist initialRegion).endPoint.getD 1 -
        (twists.foldl applyTwist initialRegion).startPoint.getD 0) * d) := by
  have h := foldl_applyTwist_inv twists initialRegion initial_region_inv
  exact ⟨h, fun d hd => mul_nonneg (sub_nonneg.2 h.2.1) hd⟩

/-- C10 witness. -/
theorem region_bounds_invariant_witness :
    RegionInv ([RegionTwist.startKnob 3, RegionTwist.endKnob (-2)].foldl
      applyTwist initialRegion) ∧
    0 ≤ (([RegionTwist.startKnob 3, RegionTwist.endKnob (-2)].foldl
        applyTwist initialRegion).endPoint.getD 1 -
      ([RegionTwist.startKnob 3, RegionTwist.endKnob (-2)].foldl
        applyTwist initialRegion).startPoint.getD 0) * 4 :=
  ⟨(region_bounds_invariant [RegionTwist.startKnob 3, RegionTwist.endKnob (-2)]).1,
    (region_bounds_invariant [RegionTwist.startKnob 3, RegionTwist.endKnob (-2)]).2
      4 (by norm_num)⟩

end Pushboard
